import Mathlib

/-!
Verification of the nomos environment-variables provider core
(`internal/converter`, `internal/config`, `internal/resolver`,
`internal/fetcher`, `internal/provider`) against its natural-language
specification.  The Go source is shallowly embedded: pure functions become
Lean functions, the provider's mutable fields become explicit state passing,
the OS environment becomes an explicit `String → Option String` argument,
and `len` on Go strings is modelled as UTF-8 byte size.
-/

namespace EnvVarProvider

/-- One Unicode code point is Go's `unicode.IsSpace` white space.
Models Go's `unicode.IsSpace` over the Latin-1 and Unicode space ranges
used by `strings.TrimSpace`. -/
def goIsSpace (c : Char) : Bool :=
  c.toNat = 9 || c.toNat = 10 || c.toNat = 11 || c.toNat = 12 ||
  c.toNat = 13 || c.toNat = 32 || c.toNat = 0x85 || c.toNat = 0xA0 ||
  c.toNat = 0x1680 || (0x2000 ≤ c.toNat && c.toNat ≤ 0x200A) ||
  c.toNat = 0x2028 || c.toNat = 0x2029 || c.toNat = 0x202F ||
  c.toNat = 0x205F || c.toNat = 0x3000

/-- Go `strings.TrimSpace`: drop leading and trailing white space. -/
def goTrimSpace (s : String) : String :=
  String.mk (((s.data.dropWhile goIsSpace).reverse.dropWhile goIsSpace).reverse)

/-- ASCII lower-casing of one character.  Models the restriction of Go's
Unicode case mapping to ASCII; every string the claims touch is ASCII. -/
def asciiLower (c : Char) : Char :=
  if 'A' ≤ c ∧ c ≤ 'Z' then Char.ofNat (c.toNat + 32) else c

/-- ASCII upper-casing of one character (same modelling note as `asciiLower`). -/
def asciiUpper (c : Char) : Char :=
  if 'a' ≤ c ∧ c ≤ 'z' then Char.ofNat (c.toNat - 32) else c

/-- Go `strings.ToLower` (ASCII-restricted model). -/
def goToLower (s : String) : String := String.mk (s.data.map asciiLower)

/-- Go `strings.ToUpper` (ASCII-restricted model). -/
def goToUpper (s : String) : String := String.mk (s.data.map asciiUpper)

/-- Does `s` start with the character `c`?  Models
`strings.HasPrefix s (String.singleton c)`. -/
def startsWithChar (s : String) (c : Char) : Bool :=
  match s.data with
  | d :: _ => d = c
  | [] => false

/-- Exact value of a decimal floating-point literal, as
`mant * 10 ^ exp10`.  Rounding to the nearest `float64`, which Go performs
after this exact read, is abstracted away (no claim depends on it). -/
structure GoNum where
  mant : ℤ
  exp10 : ℤ
deriving DecidableEq

/-- The rational value denoted by a `GoNum`. -/
def GoNum.toRat (n : GoNum) : ℚ := (n.mant : ℚ) * (10 : ℚ) ^ n.exp10

/-- The value tree produced by Go's `encoding/json.Unmarshal` into an
`interface{}`: `nil`, `bool`, `float64`, `string`, `[]interface{}` and
`map[string]interface{}`.  Objects are association lists (Go maps are
unordered; duplicate keys keep the last value, as under Go map
assignment). -/
inductive Json where
  | null : Json
  | bool (b : Bool) : Json
  | num (n : GoNum) : Json
  | str (s : String) : Json
  | arr (elems : List Json) : Json
  | obj (fields : List (String × Json)) : Json

/-- `MaxJSONDepth` from `internal/converter`: maximum allowed JSON nesting
depth. -/
def MaxJSONDepth : Nat := 100

/-- Conversion failures of `internal/converter`:
`ErrValueTooLarge`, `ErrInvalidJSON`, `ErrJSONTooDeep`. -/
inductive ConvErr where
  | tooLarge : ConvErr
  | invalidJson : ConvErr
  | jsonTooDeep : ConvErr
deriving DecidableEq

mutual

/-- `validateDepth` from `internal/converter`: recursively checks JSON
nesting depth, failing once the running depth exceeds `MaxJSONDepth`. -/
def validateDepth (value : Json) (depth : Nat) : Except ConvErr Unit :=
  if depth > MaxJSONDepth then .error .jsonTooDeep
  else
    match value with
    | .obj fields => validateDepthFields fields depth
    | .arr elems => validateDepthElems elems depth
    | _ => .ok ()

/-- The `for ... range` loop of `validateDepth` over an object's values. -/
def validateDepthFields (fields : List (String × Json)) (depth : Nat) :
    Except ConvErr Unit :=
  match fields with
  | [] => .ok ()
  | (_, v) :: rest =>
    match validateDepth v (depth + 1) with
    | .error e => .error e
    | .ok () => validateDepthFields rest depth

/-- The `for ... range` loop of `validateDepth` over an array's elements. -/
def validateDepthElems (elems : List Json) (depth : Nat) :
    Except ConvErr Unit :=
  match elems with
  | [] => .ok ()
  | v :: rest =>
    match validateDepth v (depth + 1) with
    | .error e => .error e
    | .ok () => validateDepthElems rest depth

end

mutual

/-- Nesting height of a JSON value: 0 for scalars and empty containers,
one more than the deepest child otherwise.  `jsonHeight v` is the length
of the longest path of containers through `v`. -/
def jsonHeight : Json → Nat
  | .obj fields => fieldsHeight fields
  | .arr elems => elemsHeight elems
  | _ => 0

/-- Height of the deepest value of an object's fields, plus one. -/
def fieldsHeight : List (String × Json) → Nat
  | [] => 0
  | (_, v) :: rest => max (jsonHeight v + 1) (fieldsHeight rest)

/-- Height of the deepest element of an array, plus one. -/
def elemsHeight : List Json → Nat
  | [] => 0
  | v :: rest => max (jsonHeight v + 1) (elemsHeight rest)

end

/-! ### JSON parsing (model of `encoding/json.Unmarshal` into `interface{}`) -/

/-- JSON insignificant white space (the four characters Go's scanner skips). -/
def isJsonWs (c : Char) : Bool :=
  c = ' ' || c = '\t' || c = '\n' || c = '\r'

/-- Skip insignificant JSON white space. -/
def skipWs (cs : List Char) : List Char := cs.dropWhile isJsonWs

/-- Value of a hexadecimal digit, if any. -/
def hexVal (c : Char) : Option Nat :=
  if '0' ≤ c ∧ c ≤ '9' then some (c.toNat - 48)
  else if 'a' ≤ c ∧ c ≤ 'f' then some (c.toNat - 87)
  else if 'A' ≤ c ∧ c ≤ 'F' then some (c.toNat - 70)
  else none

/-- Body of a JSON string literal after the opening quote.  Handles the
escape sequences of the JSON grammar; a `\uXXXX` escape becomes the coded
character when it is a Unicode scalar value and U+FFFD otherwise
(surrogate-pair combining is abstracted away; no claim uses it). -/
def parseStringBody : List Char → List Char → Option (String × List Char)
  | [], _ => none
  | '"' :: rest, acc => some (String.mk acc.reverse, rest)
  | '\\' :: e :: rest, acc =>
    match e with
    | '"' => parseStringBody rest ('"' :: acc)
    | '\\' => parseStringBody rest ('\\' :: acc)
    | '/' => parseStringBody rest ('/' :: acc)
    | 'b' => parseStringBody rest (Char.ofNat 8 :: acc)
    | 'f' => parseStringBody rest (Char.ofNat 12 :: acc)
    | 'n' => parseStringBody rest ('\n' :: acc)
    | 'r' => parseStringBody rest (Char.ofNat 13 :: acc)
    | 't' => parseStringBody rest ('\t' :: acc)
    | 'u' =>
      match rest with
      | a :: b :: c :: d :: rest2 =>
        match hexVal a, hexVal b, hexVal c, hexVal d with
        | some x, some y, some z, some w =>
          parseStringBody rest2 (Char.ofNat (((x * 16 + y) * 16 + z) * 16 + w) :: acc)
        | _, _, _, _ => none
      | _ => none
    | _ => none
  | '\\' :: [], _ => none
  | c :: rest, acc =>
    if c.toNat < 0x20 then none else parseStringBody rest (c :: acc)

/-- Digits of a decimal literal as a natural number. -/
def digitsToNat (ds : List Char) : Nat :=
  ds.foldl (fun n c => n * 10 + (c.toNat - 48)) 0

/-- Combine sign, integer digits, fraction digits and exponent into the
exact value of a decimal literal:
`±(I.F × 10^expo) = ±(I·10^|F| + F) × 10^(expo − |F|)`. -/
def mkGoNum (neg : Bool) (intDigits fracDigits : List Char) (expo : ℤ) :
    GoNum :=
  let m : ℤ :=
    (digitsToNat intDigits * 10 ^ fracDigits.length + digitsToNat fracDigits : ℕ)
  { mant := if neg then -m else m, exp10 := expo - fracDigits.length }

/-- A JSON number token: `-? (0 | [1-9][0-9]*) frac? exp?`. -/
def parseNumber (cs : List Char) : Option (Json × List Char) :=
  let signed := match cs with
    | '-' :: r => (true, r)
    | _ => (false, cs)
  match signed with
  | (neg, cs1) =>
    match cs1.span Char.isDigit with
    | (intDigits, r1) =>
      if intDigits = [] then none
      else if intDigits.length > 1 ∧ intDigits.head? = some '0' then none
      else
        let fracPart : Option (List Char × List Char) := match r1 with
          | '.' :: r2 =>
            match r2.span Char.isDigit with
            | ([], _) => none
            | (fd, r3) => some (fd, r3)
          | _ => some ([], r1)
        match fracPart with
        | none => none
        | some (fracDigits, r4) =>
          let expPart : Option (Bool × List Char × List Char) := match r4 with
            | e :: r5 =>
              if e = 'e' ∨ e = 'E' then
                let esigned := match r5 with
                  | '+' :: r6 => (false, r6)
                  | '-' :: r6 => (true, r6)
                  | _ => (false, r5)
                match esigned with
                | (eneg, r6) =>
                  match r6.span Char.isDigit with
                  | ([], _) => none
                  | (ed, r7) => some (eneg, ed, r7)
              else some (false, [], r4)
            | [] => some (false, [], r4)
          match expPart with
          | none => none
          | some (eneg, expDigits, rest) =>
            let expo : ℤ :=
              if eneg then -(digitsToNat expDigits : ℤ)
              else (digitsToNat expDigits : ℤ)
            some (.num (mkGoNum neg intDigits fracDigits expo), rest)

mutual

/-- One JSON value, by recursive descent.  `fuel` only bounds recursion and
is chosen large enough at the top level (`jsonParse`) that it can never run
out on a terminating parse. -/
def parseValue : Nat → List Char → Option (Json × List Char)
  | 0, _ => none
  | _ + 1, 'n' :: 'u' :: 'l' :: 'l' :: rest => some (.null, rest)
  | _ + 1, 't' :: 'r' :: 'u' :: 'e' :: rest => some (.bool true, rest)
  | _ + 1, 'f' :: 'a' :: 'l' :: 's' :: 'e' :: rest => some (.bool false, rest)
  | _ + 1, '"' :: rest =>
    match parseStringBody rest [] with
    | some (s, r) => some (.str s, r)
    | none => none
  | fuel + 1, '[' :: rest =>
    match skipWs rest with
    | ']' :: r2 => some (.arr [], r2)
    | r2 => parseElems fuel r2 []
  | fuel + 1, '{' :: rest =>
    match skipWs rest with
    | '}' :: r2 => some (.obj [], r2)
    | r2 => parseMembers fuel r2 []
  | _ + 1, cs => parseNumber cs

/-- Comma-separated array elements up to the closing bracket. -/
def parseElems : Nat → List Char → List Json → Option (Json × List Char)
  | 0, _, _ => none
  | fuel + 1, cs, acc =>
    match parseValue fuel cs with
    | none => none
    | some (v, r) =>
      match skipWs r with
      | ',' :: r2 => parseElems fuel (skipWs r2) (acc ++ [v])
      | ']' :: r2 => some (.arr (acc ++ [v]), r2)
      | _ => none

/-- Comma-separated object members up to the closing brace.  Duplicate keys
keep the last value, the observable behaviour of Go's map assignment. -/
def parseMembers : Nat → List Char → List (String × Json) →
    Option (Json × List Char)
  | 0, _, _ => none
  | fuel + 1, cs, acc =>
    match cs with
    | '"' :: r =>
      match parseStringBody r [] with
      | none => none
      | some (k, r2) =>
        match skipWs r2 with
        | ':' :: r3 =>
          match parseValue fuel (skipWs r3) with
          | none => none
          | some (v, r4) =>
            let acc2 := acc.filter (fun p => p.1 ≠ k) ++ [(k, v)]
            match skipWs r4 with
            | ',' :: r5 => parseMembers fuel (skipWs r5) acc2
            | '}' :: r5 => some (.obj acc2, r5)
            | _ => none
        | _ => none
    | _ => none

end

/-- Model of `encoding/json.Unmarshal` into `interface{}`: parse one JSON
value and require only white space after it; `none` models a non-nil
unmarshalling error. -/
def jsonParse (s : String) : Option Json :=
  match parseValue (2 * s.length + 8) (skipWs s.data) with
  | some (v, rest) => if skipWs rest = [] then some v else none
  | none => none

/-- `TryJSON` from `internal/converter`: parse the string as JSON
(`ErrInvalidJSON` on failure) and validate nesting depth. -/
def TryJSON (value : String) : Except ConvErr Json :=
  match jsonParse value with
  | none => .error .invalidJson
  | some result =>
    match validateDepth result 0 with
    | .error e => .error e
    | .ok () => .ok result

/-! ### Numeric and boolean conversion (`TryNumeric`, `TryBoolean`) -/

/-- A Go `float64` as produced by `strconv.ParseFloat`: NaN, a signed
infinity, or a finite value (carried exactly, pre-rounding). -/
inductive GoFloat where
  | nan : GoFloat
  | inf (neg : Bool) : GoFloat
  | finite (val : GoNum) : GoFloat
deriving DecidableEq

/-- Decimal syntax of `strconv.ParseFloat`:
`[+-]? digits [. digits]? ([eE] [+-]? digits)?` with at least one mantissa
digit, consuming the whole string.  Leading zeros are allowed, unlike in
JSON.  Hexadecimal floats and digit-group underscores, which `ParseFloat`
also accepts, are omitted from the model (no claim involves them). -/
def parseFloatDec (cs : List Char) : Option GoNum :=
  let signed := match cs with
    | '+' :: r => (false, r)
    | '-' :: r => (true, r)
    | _ => (false, cs)
  match signed with
  | (neg, cs1) =>
    match cs1.span Char.isDigit with
    | (intDigits, r1) =>
      let fracPart : Option (List Char × List Char) := match r1 with
        | '.' :: r2 =>
          match r2.span Char.isDigit with
          | (fd, r3) => if intDigits = [] ∧ fd = [] then none else some (fd, r3)
        | _ => if intDigits = [] then none else some ([], r1)
      match fracPart with
      | none => none
      | some (fracDigits, r4) =>
        match r4 with
        | [] => some (mkGoNum neg intDigits fracDigits 0)
        | e :: r5 =>
          if e = 'e' ∨ e = 'E' then
            let esigned := match r5 with
              | '+' :: r6 => (false, r6)
              | '-' :: r6 => (true, r6)
              | _ => (false, r5)
            match esigned with
            | (eneg, r6) =>
              match r6.span Char.isDigit with
              | ([], _) => none
              | (ed, r7) =>
                if r7 = [] then
                  let expo : ℤ :=
                    if eneg then -(digitsToNat ed : ℤ) else (digitsToNat ed : ℤ)
                  some (mkGoNum neg intDigits fracDigits expo)
                else none
          else none

/-- `2 ^ 1024`, the `float64` overflow threshold, as a numeral (a literal
keeps kernel reduction cheap). -/
def twoPow1024 : Nat := 179769313486231590772930519078902473361797697894230657273430081157732675805500963132708477322407536021120113879871393357658789768814416622492847430639474124377767893424865485276302219601246094119453082952085005768838150682342462881473913110540827237163350510684586298239947245938479716304835356329624224137216

/-- `2 ^ 1075`, twice the reciprocal of the `float64` underflow threshold,
as a numeral. -/
def twoPow1075 : Nat := 404804506614621236704990693437834614099113299528284236713802716054860679135990693783920767402874248990374155728633623822779617474771586953734026799881477019843034848553132722728933815484186432682479535356945490137124014966849385397236206711298319112681620113024717539104666829230461005064372655017292012526615415482186989568

/-- Does the exact value lie at or beyond the `float64` overflow threshold?
`ParseFloat` then reports `ErrRange`.  The model uses `2^1024` as the
threshold; the exact half-ULP boundary of rounding is abstracted away. -/
def floatOverflows (n : GoNum) : Bool :=
  if 0 ≤ n.exp10 then twoPow1024 ≤ n.mant.natAbs * 10 ^ n.exp10.toNat
  else twoPow1024 * 10 ^ (-n.exp10).toNat ≤ n.mant.natAbs

/-- Does a non-zero exact value underflow `float64` to zero?  `ParseFloat`
then reports `ErrRange`.  Threshold `2^(-1075)`, half the smallest
subnormal; the exact boundary is abstracted away. -/
def floatUnderflows (n : GoNum) : Bool :=
  n.mant ≠ 0 && n.exp10 < 0 &&
    n.mant.natAbs * twoPow1075 < 10 ^ (-n.exp10).toNat

/-- `TryNumeric` from `internal/converter`: `strconv.ParseFloat value 64`,
returning `none` whenever Go would return a non-nil error (bad syntax, or a
range error on over/underflow).  Special values `Inf`/`Infinity` (optionally
signed) and `NaN` are matched case-insensitively, as in `strconv`. -/
def TryNumeric (value : String) : Option GoFloat :=
  let lowered := value.data.map asciiLower
  if lowered = "nan".data then some .nan
  else
    let infCheck : Option GoFloat := match lowered with
      | '+' :: r =>
        if r = "inf".data ∨ r = "infinity".data then some (.inf false) else none
      | '-' :: r =>
        if r = "inf".data ∨ r = "infinity".data then some (.inf true) else none
      | r =>
        if r = "inf".data ∨ r = "infinity".data then some (.inf false) else none
    match infCheck with
    | some f => some f
    | none =>
      match parseFloatDec value.data with
      | none => none
      | some n =>
        if floatOverflows n then none
        else if floatUnderflows n then none
        else some (.finite n)

/-- `TryBoolean` from `internal/converter`: trim, lower-case, and accept
exactly `true`, `yes`, `false`, `no`. -/
def TryBoolean (value : String) : Option Bool :=
  let lower := goToLower (goTrimSpace value)
  if lower = "true" ∨ lower = "yes" then some true
  else if lower = "false" ∨ lower = "no" then some false
  else none

/-! ### `ConvertValue` -/

/-- `MaxValueSize` from `internal/converter` (and `internal/fetcher`):
1 MiB. -/
def MaxValueSize : Nat := 1 * 1024 * 1024

/-- A converted value as handed to the transport (`interface{}` in Go):
a string, a `float64`, a `bool`, or a JSON tree. -/
inductive ProtoVal where
  | s (v : String) : ProtoVal
  | n (v : GoFloat) : ProtoVal
  | b (v : Bool) : ProtoVal
  | j (v : Json) : ProtoVal

/-- Is the parsed JSON value an array (`result.([]interface{})` in Go)? -/
def isJsonArray : Json → Bool
  | .arr _ => true
  | _ => false

/-- `ConvertValue` from `internal/converter`: size check, empty-string
short-circuit, JSON sniff on the trimmed value, then number, boolean,
string.  Returns the value and Go's type string. -/
def ConvertValue (value : String) (enableTypeConversion enableJSONParsing : Bool) :
    Except ConvErr (ProtoVal × String) :=
  if value.utf8ByteSize > MaxValueSize then .error .tooLarge
  else if value = "" then .ok (.s value, "string")
  else
    let trimmed := goTrimSpace value
    if enableJSONParsing &&
        (startsWithChar trimmed '{' || startsWithChar trimmed '[') then
      match TryJSON value with
      | .error e => .error e
      | .ok result =>
        .ok (.j result, if isJsonArray result then "array" else "object")
    else if !enableTypeConversion then .ok (.s value, "string")
    else
      match TryNumeric value with
      | some numv => .ok (.n numv, "number")
      | none =>
        match TryBoolean value with
        | some bv => .ok (.b bv, "boolean")
        | none => .ok (.s value, "string")

/-! ### Configuration (`internal/config`) -/

/-- `Config` from `internal/config`.  `Init` parses the request's protobuf
struct into this record (with defaults) before validation; that
deserialization step is not modelled — the embedding starts from the parsed
record. -/
structure Config where
  Separator : String
  CaseTransform : String
  Prefix : String
  PrefixMode : String
  RequiredVariables : List String
  EnableTypeConversion : Bool
  EnableJSONParsing : Bool
deriving DecidableEq

/-- `DefaultConfig` from `internal/config`. -/
def DefaultConfig : Config :=
  { Separator := "_", CaseTransform := "upper", Prefix := "",
    PrefixMode := "prepend", RequiredVariables := [],
    EnableTypeConversion := true, EnableJSONParsing := true }

/-- The distinct `InvalidConfig` failures of `ValidateConfig`, by the
configuration key each Go error message names. -/
inductive ConfigError where
  | invalidCaseTransform (s : String) : ConfigError
  | invalidPrefixMode (s : String) : ConfigError
  | invalidSeparator (s : String) : ConfigError
  | emptyRequiredVariable (i : Nat) : ConfigError
deriving DecidableEq

/-- The `for i, varName := range c.RequiredVariables` loop of
`ValidateConfig`: index of the first entry that trims to empty. -/
def firstEmptyRequired : List String → Nat → Option Nat
  | [], _ => none
  | v :: rest, i =>
    if goTrimSpace v = "" then some i else firstEmptyRequired rest (i + 1)

/-- `ValidateConfig` from `internal/config`: case transform, then prefix
mode, then separator (Go `len`, i.e. UTF-8 **bytes**, must equal 1), then
non-empty required-variable entries; the first failure wins. -/
def ValidateConfig (c : Config) : Except ConfigError Unit :=
  if ¬(c.CaseTransform = "upper" ∨ c.CaseTransform = "lower" ∨
      c.CaseTransform = "preserve") then
    .error (.invalidCaseTransform c.CaseTransform)
  else if ¬(c.PrefixMode = "prepend" ∨ c.PrefixMode = "filter_only") then
    .error (.invalidPrefixMode c.PrefixMode)
  else if c.Separator.utf8ByteSize ≠ 1 then
    .error (.invalidSeparator c.Separator)
  else
    match firstEmptyRequired c.RequiredVariables 0 with
    | some i => .error (.emptyRequiredVariable i)
    | none => .ok ()

/-! ### Path resolution (`internal/resolver`) -/

/-- `Resolver` from `internal/resolver`. -/
structure Resolver where
  separator : String
  caseTransform : String
  rprefix : String
  prefixMode : String
deriving DecidableEq

/-- `NewResolver` from `internal/resolver` (fields in Go order: separator,
case transform, prefix, prefix mode). -/
def NewResolver (separator caseTransform pfx mode : String) : Resolver :=
  { separator := separator, caseTransform := caseTransform,
    rprefix := pfx, prefixMode := mode }

/-- `TransformSegment` from `internal/resolver/transform.go`: apply the case
rule to one segment (unknown rules preserve). -/
def TransformSegment (segment caseTransform : String) : String :=
  if caseTransform = "upper" then goToUpper segment
  else if caseTransform = "lower" then goToLower segment
  else segment

/-- `TransformSegments`: apply the case rule to every segment. -/
def TransformSegments (segments : List String) (caseTransform : String) :
    List String :=
  segments.map (fun s => TransformSegment s caseTransform)

/-- `PrependPrefix` from `internal/resolver/prefix.go`. -/
def PrependPrefix (varName pfx : String) : String := pfx ++ varName

/-- `ApplyPrefix` from `internal/resolver/prefix.go`: prepend in `prepend`
mode; leave unchanged in `filter_only` mode, with an empty prefix, or for
unknown modes. -/
def ApplyPrefix (varName pfx mode : String) : String :=
  if pfx = "" then varName
  else if mode = "prepend" then PrependPrefix varName pfx
  else varName

/-- `FilterByPrefix` from `internal/resolver/prefix.go`: allow every name
when no prefix is configured, otherwise require the (case-sensitive) string
prefix. -/
def FilterByPrefix (varName pfx : String) : Bool :=
  if pfx = "" then true else pfx.isPrefixOf varName

/-- Errors of `Resolver.Transform`: `ErrEmptyPath` and `ErrEmptySegment`. -/
inductive ResolverError where
  | emptyPath : ResolverError
  | emptySegment : ResolverError
deriving DecidableEq

/-- `Resolver.Transform` from `internal/resolver`: validate the path,
case-transform each segment, join with the separator, apply the prefix
policy. -/
def Transform (r : Resolver) (path : List String) :
    Except ResolverError String :=
  if path = [] then .error .emptyPath
  else if path.any (fun s => goTrimSpace s = "") then .error .emptySegment
  else
    .ok (ApplyPrefix
      (String.intercalate r.separator (TransformSegments path r.caseTransform))
      r.rprefix r.prefixMode)

/-! ### Variable store (`internal/fetcher`) -/

/-- The fetcher's `sync.Map` cache, as an association list; `cacheStore`
prepends, and `cacheLoad` takes the most recent binding, so the list
behaves as the Go map (last store wins). -/
abbrev Cache := List (String × String)

/-- `sync.Map.Load`. -/
def cacheLoad (c : Cache) (k : String) : Option String :=
  match c.find? (fun p => p.1 = k) with
  | some p => some p.2
  | none => none

/-- `sync.Map.Store`. -/
def cacheStore (c : Cache) (k v : String) : Cache := (k, v) :: c

/-- Errors of `Fetcher.Fetch`: `ErrNotFound` and `ErrValueTooLarge`. -/
inductive FetchError where
  | notFound : FetchError
  | tooLarge : FetchError
deriving DecidableEq

/-- `Fetcher.Fetch` from `internal/fetcher`: serve from the cache when
present; otherwise read the environment (modelled as an explicit
`String → Option String`, `none` = unset), reject values over
`MaxValueSize` bytes without caching, and cache successful reads.  Returns
the result and the updated cache. -/
def fetcherFetch (cache : Cache) (env : String → Option String)
    (varName : String) : Except FetchError String × Cache :=
  match cacheLoad cache varName with
  | some cached => (.ok cached, cache)
  | none =>
    match env varName with
    | none => (.error .notFound, cache)
    | some value =>
      if value.utf8ByteSize > MaxValueSize then (.error .tooLarge, cache)
      else (.ok value, cacheStore cache varName value)

/-! ### Provider lifecycle (`internal/provider`) -/

/-- `State` from `internal/provider`: the lifecycle states, in the order of
the Go `iota` constants. -/
inductive PState where
  | uninitialized : PState
  | initializing : PState
  | ready : PState
  | shuttingDown : PState
  | stopped : PState
deriving DecidableEq

/-- The `Provider` struct's data relevant to the embedded handlers.  The
fetcher's cache is inlined as `cache`; `config` and `resolver` are `none`
until an `Init` succeeds (Go nil pointers). -/
structure Provider where
  aliasName : String
  config : Option Config
  resolver : Option Resolver
  cache : Cache
  state : PState
deriving DecidableEq

/-- `provider.New`: a provider in `StateUninitialized` with no
configuration. -/
def newProvider : Provider :=
  { aliasName := "", config := none, resolver := none, cache := [],
    state := .uninitialized }

/-- `Init` failures: gRPC `InvalidArgument` carrying either a
config-validation error or the full list of missing required variables. -/
inductive InitError where
  | invalidConfig (e : ConfigError) : InitError
  | missingRequired (names : List String) : InitError
deriving DecidableEq

/-- `Provider.Init` from `internal/provider/init.go`, starting from the
already-parsed `Config` (see `Config`).  Note the handler performs **no**
check of the current state: it moves to `Initializing`, validates, checks
every required variable against the live environment (collecting **all**
missing names), and on success stores the configuration wholesale and
becomes `Ready`; on failure it becomes `Uninitialized`.  The cache is kept
(the fetcher is only created if nil). -/
def providerInit (p : Provider) (env : String → Option String)
    (reqAlias : String) (cfg : Config) : Except InitError Unit × Provider :=
  -- state := Initializing (transient; overwritten below on every path)
  match ValidateConfig cfg with
  | .error e => (.error (.invalidConfig e), { p with state := .uninitialized })
  | .ok () =>
    let missing := cfg.RequiredVariables.filter (fun n => (env n).isNone)
    if missing.length > 0 then
      (.error (.missingRequired missing), { p with state := .uninitialized })
    else
      (.ok (),
        { p with
          aliasName := reqAlias
          config := some cfg
          resolver := some (NewResolver cfg.Separator cfg.CaseTransform
            cfg.Prefix cfg.PrefixMode)
          state := .ready })

/-- gRPC status codes returned by the `Fetch` handler. -/
inductive GrpcCode where
  | failedPrecondition : GrpcCode
  | invalidArgument : GrpcCode
  | notFound : GrpcCode
  | internal : GrpcCode
deriving DecidableEq

/-- `Provider.Fetch` from `internal/provider/fetch.go`: precondition check
(`FailedPrecondition` unless `Ready`), path validation, single-segment
pass-through vs. resolver transform, `filter_only` prefix filter, cached
environment fetch, and type conversion.  The `none` config/resolver case
models the Go nil dereference that the lifecycle makes unreachable. -/
def providerFetch (p : Provider) (env : String → Option String)
    (path : List String) : Except GrpcCode ProtoVal × Provider :=
  if p.state ≠ .ready then (.error .failedPrecondition, p)
  else if path = [] then (.error .invalidArgument, p)
  else if path.any (fun s => goTrimSpace s = "") then
    (.error .invalidArgument, p)
  else
    match p.config, p.resolver with
    | some cfg, some r =>
      let varNameE : Except GrpcCode String :=
        if path.length = 1 then .ok (path.headD "")
        else
          match Transform r path with
          | .error _ => .error .invalidArgument
          | .ok n => .ok n
      match varNameE with
      | .error e => (.error e, p)
      | .ok varName =>
        if cfg.PrefixMode = "filter_only" ∧ cfg.Prefix ≠ "" ∧
            FilterByPrefix varName cfg.Prefix = false then
          (.error .notFound, p)
        else
          match fetcherFetch p.cache env varName with
          | (.error .notFound, c) => (.error .notFound, { p with cache := c })
          | (.error .tooLarge, c) =>
            (.error .invalidArgument, { p with cache := c })
          | (.ok value, c) =>
            let p2 := { p with cache := c }
            if cfg.EnableTypeConversion || cfg.EnableJSONParsing then
              match ConvertValue value cfg.EnableTypeConversion
                  cfg.EnableJSONParsing with
              | .error _ => (.error .invalidArgument, p2)
              | .ok (v, _) => (.ok v, p2)
            else (.ok (.s value), p2)
    | _, _ => (.error .internal, p)

/-! ### Concrete scenario data used by the claims -/

/-- A JSON value nested exactly `n` container levels deep:
`n` arrays around the number `1`. -/
def nestArr : Nat → Json
  | 0 => .num ⟨1, 0⟩
  | n + 1 => .arr [nestArr n]

/-- The textual form of `nestArr n`: `n` opening brackets, `1`, `n`
closing brackets. -/
def nestArrStr (n : Nat) : String :=
  String.mk (List.replicate n '[' ++ '1' :: List.replicate n ']')

/-- C2's configuration: `prefix="MYAPP_"`, `prefix_mode="prepend"`,
`case_transform="upper"` (and the defaults elsewhere). -/
def cfgC2 : Config := { DefaultConfig with Prefix := "MYAPP_" }

/-- C2's environment: only `MYAPP_PORT=8080` is set. -/
def envC2 : String → Option String :=
  fun n => if n = "MYAPP_PORT" then some "8080" else none

/-- An environment where only the variable literally named `port` is set. -/
def envPortLiteral : String → Option String :=
  fun n => if n = "port" then some "8080" else none

/-- A provider successfully initialized with `cfgC2` (the state `Init`
leaves: `Ready`, resolver built from the configuration). -/
def readyProviderC2 : Provider :=
  { aliasName := "envs", config := some cfgC2,
    resolver := some (NewResolver cfgC2.Separator cfgC2.CaseTransform
      cfgC2.Prefix cfgC2.PrefixMode),
    cache := [], state := .ready }

/-- C7's configuration: `required_variables=["DB_URL","API_KEY"]`. -/
def cfgC7 : Config :=
  { DefaultConfig with RequiredVariables := ["DB_URL", "API_KEY"] }

/-- C7's environment: only `DB_URL` is set. -/
def envC7 : String → Option String :=
  fun n => if n = "DB_URL" then some "postgres://db" else none

/-- A second valid configuration, differing from `DefaultConfig` in its
separator; used to show re-initialization replaces the configuration. -/
def cfgDash : Config := { DefaultConfig with Separator := "-" }

/-- A provider that is already `Ready` with the default configuration. -/
def readyProviderDefault : Provider :=
  { aliasName := "a", config := some DefaultConfig,
    resolver := some (NewResolver DefaultConfig.Separator
      DefaultConfig.CaseTransform DefaultConfig.Prefix
      DefaultConfig.PrefixMode),
    cache := [], state := .ready }

/-- A configuration whose separator is a single multi-byte character
(`é`, two UTF-8 bytes, one character). -/
def cfgMultiByteSep : Config := { DefaultConfig with Separator := "é" }

/-- A configuration with three-byte separator text, for exercising the
separator check behind valid case/mode checks. -/
def cfgLongSep : Config := { DefaultConfig with Separator := "abc" }

/-- A valid `preserve`-case configuration with a non-empty prefix in
`prepend` mode. -/
def cfgPreservePrepend : Config :=
  { DefaultConfig with CaseTransform := "preserve", Prefix := "P_" }

/-- A valid `preserve`-case configuration with no prefix. -/
def cfgPreserveNoPrefix : Config :=
  { DefaultConfig with CaseTransform := "preserve" }

/-! ### Helper lemmas -/

mutual

/-- Depth validation succeeds exactly when the start depth plus the value's
nesting height stays within `MaxJSONDepth`. -/
theorem validateDepth_ok_iff (v : Json) (d : Nat) :
    validateDepth v d = .ok () ↔ d + jsonHeight v ≤ MaxJSONDepth := by
  rw [validateDepth.eq_def]
  by_cases hd : d > MaxJSONDepth
  · rw [if_pos hd]
    have h0 : ¬(d + jsonHeight v ≤ MaxJSONDepth) := by omega
    simp [h0]
  · rw [if_neg hd]
    have hd2 : d ≤ MaxJSONDepth := by omega
    cases v with
    | null => simpa [jsonHeight] using hd2
    | bool b => simpa [jsonHeight] using hd2
    | num n => simpa [jsonHeight] using hd2
    | str s => simpa [jsonHeight] using hd2
    | arr elems => simpa [jsonHeight] using validateDepthElems_ok_iff elems d hd2
    | obj fields => simpa [jsonHeight] using validateDepthFields_ok_iff fields d hd2

/-- Loop form of `validateDepth_ok_iff` for object fields. -/
theorem validateDepthFields_ok_iff (l : List (String × Json)) (d : Nat)
    (hd : d ≤ MaxJSONDepth) :
    validateDepthFields l d = .ok () ↔ d + fieldsHeight l ≤ MaxJSONDepth := by
  cases l with
  | nil => simp [validateDepthFields, fieldsHeight]; omega
  | cons kv rest =>
    obtain ⟨k, v⟩ := kv
    rw [validateDepthFields, fieldsHeight]
    have h1 := validateDepth_ok_iff v (d + 1)
    have h2 := validateDepthFields_ok_iff rest d hd
    cases hv : validateDepth v (d + 1) with
    | error e =>
      rw [hv] at h1
      simp only [hv]
      have : ¬(d + 1 + jsonHeight v ≤ MaxJSONDepth) := by
        intro hle
        exact absurd (h1.mpr hle) (by simp)
      constructor
      · intro h; exact absurd h (by simp)
      · intro h
        have := Nat.le_max_left (jsonHeight v + 1) (fieldsHeight rest)
        omega
    | ok u =>
      cases u
      rw [hv] at h1
      simp only [hv]
      have h1' : d + 1 + jsonHeight v ≤ MaxJSONDepth := h1.mp rfl
      rw [h2]
      have hl := Nat.le_max_left (jsonHeight v + 1) (fieldsHeight rest)
      have hr := Nat.le_max_right (jsonHeight v + 1) (fieldsHeight rest)
      constructor
      · intro h; omega
      · intro h; omega

/-- Loop form of `validateDepth_ok_iff` for array elements. -/
theorem validateDepthElems_ok_iff (l : List Json) (d : Nat)
    (hd : d ≤ MaxJSONDepth) :
    validateDepthElems l d = .ok () ↔ d + elemsHeight l ≤ MaxJSONDepth := by
  cases l with
  | nil => simp [validateDepthElems, elemsHeight]; omega
  | cons v rest =>
    rw [validateDepthElems, elemsHeight]
    have h1 := validateDepth_ok_iff v (d + 1)
    have h2 := validateDepthElems_ok_iff rest d hd
    cases hv : validateDepth v (d + 1) with
    | error e =>
      rw [hv] at h1
      simp only [hv]
      have : ¬(d + 1 + jsonHeight v ≤ MaxJSONDepth) := by
        intro hle
        exact absurd (h1.mpr hle) (by simp)
      constructor
      · intro h; exact absurd h (by simp)
      · intro h
        have := Nat.le_max_left (jsonHeight v + 1) (elemsHeight rest)
        omega
    | ok u =>
      cases u
      rw [hv] at h1
      simp only [hv]
      have h1' : d + 1 + jsonHeight v ≤ MaxJSONDepth := h1.mp rfl
      rw [h2]
      have hl := Nat.le_max_left (jsonHeight v + 1) (elemsHeight rest)
      have hr := Nat.le_max_right (jsonHeight v + 1) (elemsHeight rest)
      constructor
      · intro h; omega
      · intro h; omega

end

mutual

/-- The only error `validateDepth` ever produces is `jsonTooDeep`. -/
theorem validateDepth_error_deep (v : Json) (d : Nat) (e : ConvErr)
    (h : validateDepth v d = .error e) : e = .jsonTooDeep := by
  rw [validateDepth.eq_def] at h
  by_cases hd : d > MaxJSONDepth
  · rw [if_pos hd] at h
    exact (Except.error.inj h).symm
  · rw [if_neg hd] at h
    cases v with
    | null => exact absurd h (by simp)
    | bool b => exact absurd h (by simp)
    | num n => exact absurd h (by simp)
    | str s => exact absurd h (by simp)
    | arr elems => exact validateDepthElems_error_deep elems d e (by simpa using h)
    | obj fields => exact validateDepthFields_error_deep fields d e (by simpa using h)

/-- Loop form of `validateDepth_error_deep` for object fields. -/
theorem validateDepthFields_error_deep (l : List (String × Json)) (d : Nat)
    (e : ConvErr) (h : validateDepthFields l d = .error e) : e = .jsonTooDeep := by
  cases l with
  | nil => exact absurd h (by simp [validateDepthFields])
  | cons kv rest =>
    obtain ⟨k, v⟩ := kv
    rw [validateDepthFields] at h
    cases hv : validateDepth v (d + 1) with
    | error e2 =>
      rw [hv] at h
      simp only at h
      rw [validateDepth_error_deep v (d + 1) e2 hv] at h
      exact (Except.error.inj h).symm
    | ok u =>
      cases u
      rw [hv] at h
      exact validateDepthFields_error_deep rest d e (by simpa using h)

/-- Loop form of `validateDepth_error_deep` for array elements. -/
theorem validateDepthElems_error_deep (l : List Json) (d : Nat)
    (e : ConvErr) (h : validateDepthElems l d = .error e) : e = .jsonTooDeep := by
  cases l with
  | nil => exact absurd h (by simp [validateDepthElems])
  | cons v rest =>
    rw [validateDepthElems] at h
    cases hv : validateDepth v (d + 1) with
    | error e2 =>
      rw [hv] at h
      simp only at h
      rw [validateDepth_error_deep v (d + 1) e2 hv] at h
      exact (Except.error.inj h).symm
    | ok u =>
      cases u
      rw [hv] at h
      exact validateDepthElems_error_deep rest d e (by simpa using h)

end

/-- `nestArr n` is nested exactly `n` levels deep. -/
theorem nestArr_height : ∀ n : Nat, jsonHeight (nestArr n) = n := by
  intro n
  induction n with
  | zero => rfl
  | succ m ih =>
    rw [nestArr]
    rw [show jsonHeight (.arr [nestArr m]) = elemsHeight [nestArr m] from rfl]
    rw [show elemsHeight [nestArr m] =
      max (jsonHeight (nestArr m) + 1) (elemsHeight []) from rfl]
    rw [ih]
    simp [elemsHeight]

/-! ### Claims -/

/-- C3: for every path, a Fetch issued while the instance state is not
Ready (in particular Uninitialized or Initializing) fails with a
FailedPrecondition error, leaves the provider unchanged, and never returns
a value. -/
theorem fetch_requires_ready (p : Provider) (env : String → Option String)
    (path : List String) (h : p.state ≠ .ready) :
    providerFetch p env path = (.error .failedPrecondition, p) ∧
    ∀ (v : ProtoVal) (p2 : Provider), providerFetch p env path ≠ (.ok v, p2) := by
  have heq : providerFetch p env path = (.error .failedPrecondition, p) := by
    unfold providerFetch
    rw [if_pos h]
  refine ⟨heq, fun v p2 hc => ?_⟩
  rw [heq] at hc
  simp at hc

/-- Witness for C3: the freshly created provider is Uninitialized, and a
Fetch against it fails with FailedPrecondition. -/
theorem fetch_requires_ready_witness :
    newProvider.state ≠ .ready ∧
    providerFetch newProvider (fun _ => none) ["db", "host"] =
      (.error .failedPrecondition, newProvider) :=
  ⟨by decide,
    (fetch_requires_ready newProvider (fun _ => none) ["db", "host"]
      (by decide)).1⟩

/-- C4: a successful `Fetcher.Fetch` leaves the value in the cache; a
cached name is answered from the cache with the identical raw value, with
no change to the cache and no dependence on the current environment (which
may have changed or been unset); fetches of other names preserve existing
cache entries; and a fetch failing with TooLarge stores nothing. -/
theorem fetcher_cache_idempotent :
    (∀ (cache : Cache) (env : String → Option String) (name v : String)
        (c2 : Cache), fetcherFetch cache env name = (.ok v, c2) →
        cacheLoad c2 name = some v) ∧
    (∀ (cache : Cache) (name v : String), cacheLoad cache name = some v →
        ∀ env2 : String → Option String,
          fetcherFetch cache env2 name = (.ok v, cache)) ∧
    (∀ (cache : Cache) (env : String → Option String) (other name v : String),
        cacheLoad cache name = some v →
        cacheLoad (fetcherFetch cache env other).2 name = some v) ∧
    (∀ (cache : Cache) (env : String → Option String) (name : String),
        (fetcherFetch cache env name).1 = .error .tooLarge →
        (fetcherFetch cache env name).2 = cache) := by
  refine ⟨?_, ?_, ?_, ?_⟩
  · intro cache env name v c2 h
    unfold fetcherFetch at h
    cases hl : cacheLoad cache name with
    | some w =>
      simp only [hl, Prod.mk.injEq, Except.ok.injEq] at h
      obtain ⟨rfl, rfl⟩ := h
      exact hl
    | none =>
      simp only [hl] at h
      cases he : env name with
      | none => simp only [he] at h; simp at h
      | some value =>
        simp only [he] at h
        by_cases hs : value.utf8ByteSize > MaxValueSize
        · rw [if_pos hs] at h; simp at h
        · rw [if_neg hs] at h
          simp only [Prod.mk.injEq, Except.ok.injEq] at h
          obtain ⟨rfl, rfl⟩ := h
          simp [cacheLoad, cacheStore]
  · intro cache name v h env2
    unfold fetcherFetch
    simp only [h]
  · intro cache env other name v h
    unfold fetcherFetch
    cases hl : cacheLoad cache other with
    | some w => simp only [hl]; exact h
    | none =>
      simp only [hl]
      cases he : env other with
      | none => simp only [he]; exact h
      | some value =>
        simp only [he]
        by_cases hs : value.utf8ByteSize > MaxValueSize
        · rw [if_pos hs]; exact h
        · rw [if_neg hs]
          have hne : other ≠ name := by
            intro hoeq
            rw [hoeq] at hl
            rw [hl] at h
            exact Option.noConfusion h
          simpa [cacheLoad, cacheStore, hne] using h
  · intro cache env name h
    unfold fetcherFetch at h ⊢
    cases hl : cacheLoad cache name with
    | some w => simp only [hl] at h; simp at h
    | none =>
      simp only [hl] at h ⊢
      cases he : env name with
      | none => simp only [he] at h; simp at h
      | some value =>
        simp only [he] at h ⊢
        by_cases hs : value.utf8ByteSize > MaxValueSize
        · rw [if_pos hs]
        · rw [if_neg hs] at h; simp at h

/-- Witness for C4: a fetch of `HOST=localhost` populates the cache, and a
subsequent fetch against an environment where the variable is unset still
returns `localhost` from the cache. -/
theorem fetcher_cache_idempotent_witness :
    fetcherFetch [] (fun n => if n = "HOST" then some "localhost" else none)
      "HOST" = (.ok "localhost", [("HOST", "localhost")]) ∧
    cacheLoad [("HOST", "localhost")] "HOST" = some "localhost" ∧
    fetcherFetch [("HOST", "localhost")] (fun _ => none) "HOST" =
      (.ok "localhost", [("HOST", "localhost")]) := by
  refine ⟨rfl, rfl, ?_⟩
  exact fetcher_cache_idempotent.2.1 [("HOST", "localhost")] "HOST"
    "localhost" rfl (fun _ => none)

/-- C2 counterexample: with `prefix="MYAPP_"`, `prefix_mode="prepend"`,
`case_transform="upper"` and only `MYAPP_PORT=8080` set, a Fetch of the
single-segment path `["port"]` does **not** return `Number(8080)`: it fails
with NotFound (the code treats a one-segment path as a literal variable
name and never applies the prefix or case transform to it). -/
theorem fetch_single_segment_counterexample :
    (providerFetch readyProviderC2 envC2 ["port"]).1 = .error .notFound ∧
    ∀ v : ProtoVal, (providerFetch readyProviderC2 envC2 ["port"]).1 ≠ .ok v := by
  have h : (providerFetch readyProviderC2 envC2 ["port"]).1 =
      .error .notFound := rfl
  refine ⟨h, fun v hc => ?_⟩
  rw [h] at hc
  exact Except.noConfusion hc

/-- C2 (amended): with `prefix="MYAPP_"`, `prefix_mode="prepend"`,
`case_transform="upper"` and `MYAPP_PORT=8080` set, a Fetch of the
single-segment path `["port"]` treats the segment as a literal variable
name (pass-through, skipping separator/case/prefix), so it looks up `port`
and fails NotFound; a variable literally named `port` set to `8080` would
be fetched and converted to `Number(8080)`; only the resolver's
transform — which the Fetch handler bypasses for one-segment paths — maps
`["port"]` to `MYAPP_PORT`. -/
theorem fetch_single_segment_passthrough :
    providerFetch readyProviderC2 envC2 ["port"] =
      (.error .notFound, readyProviderC2) ∧
    (providerFetch readyProviderC2 envPortLiteral ["port"]).1 =
      .ok (.n (.finite ⟨8080, 0⟩)) ∧
    GoNum.toRat ⟨8080, 0⟩ = 8080 ∧
    Transform (NewResolver cfgC2.Separator cfgC2.CaseTransform cfgC2.Prefix
      cfgC2.PrefixMode) ["port"] = .ok "MYAPP_PORT" := by
  refine ⟨rfl, rfl, by simp [GoNum.toRat], rfl⟩

set_option maxRecDepth 8000 in
/-- C6: a JSON value nested exactly 100 container levels deep converts
successfully and one nested 101 levels deep fails with JsonTooDeep; in
general the depth check accepts a value at start depth 0 exactly when its
nesting height — the longest container path through it — stays within
`MaxJSONDepth`, and depth validation never produces any other error. -/
theorem json_depth_boundary :
    TryJSON (nestArrStr 100) = .ok (nestArr 100) ∧
    TryJSON (nestArrStr 101) = .error .jsonTooDeep ∧
    (∀ tc : Bool, ConvertValue (nestArrStr 100) tc true =
      .ok (.j (nestArr 100), "array")) ∧
    (∀ tc : Bool, ConvertValue (nestArrStr 101) tc true =
      .error .jsonTooDeep) ∧
    jsonHeight (nestArr 100) = 100 ∧
    jsonHeight (nestArr 101) = 101 ∧
    (∀ v : Json, validateDepth v 0 = .ok () ↔ jsonHeight v ≤ MaxJSONDepth) ∧
    (∀ (v : Json) (d : Nat), validateDepth v d = .ok () ∨
      validateDepth v d = .error .jsonTooDeep) := by
  refine ⟨rfl, rfl, ?_, ?_, nestArr_height 100, nestArr_height 101, ?_, ?_⟩
  · intro tc; cases tc <;> rfl
  · intro tc; cases tc <;> rfl
  · intro v
    simpa using validateDepth_ok_iff v 0
  · intro v d
    cases h : validateDepth v d with
    | ok u => cases u; exact Or.inl rfl
    | error e =>
      right
      rw [validateDepth_error_deep v d e h]

/-- C7: when Init runs with a valid configuration some of whose required
variables are absent from the environment, it fails reporting **all**
missing names together (every absent required name is in the reported
list) and leaves the state Uninitialized; with
`required_variables=["DB_URL","API_KEY"]` and only `DB_URL` set, the error
lists exactly `["API_KEY"]`. -/
theorem init_missing_required :
    (∀ (p : Provider) (env : String → Option String) (a : String)
        (cfg : Config), ValidateConfig cfg = .ok () →
      cfg.RequiredVariables.filter (fun n => (env n).isNone) ≠ [] →
      providerInit p env a cfg =
        (.error (.missingRequired
            (cfg.RequiredVariables.filter (fun n => (env n).isNone))),
          { p with state := .uninitialized }) ∧
      (∀ n ∈ cfg.RequiredVariables, env n = none →
        n ∈ cfg.RequiredVariables.filter (fun n2 => (env n2).isNone))) ∧
    providerInit newProvider envC7 "envs" cfgC7 =
      (.error (.missingRequired ["API_KEY"]),
        { newProvider with state := .uninitialized }) := by
  constructor
  · intro p env a cfg hval hmiss
    constructor
    · unfold providerInit
      simp only [hval]
      rw [if_pos (by simpa [List.length_pos] using hmiss)]
    · intro n hn hnone
      rw [List.mem_filter]
      exact ⟨hn, by simp [hnone]⟩
  · rfl

/-- Witness for C7: the concrete scenario, derived by applying the general
statement. -/
theorem init_missing_required_witness :
    ValidateConfig cfgC7 = .ok () ∧
    cfgC7.RequiredVariables.filter (fun n => (envC7 n).isNone) = ["API_KEY"] ∧
    providerInit newProvider envC7 "envs" cfgC7 =
      (.error (.missingRequired
          (cfgC7.RequiredVariables.filter (fun n => (envC7 n).isNone))),
        { newProvider with state := .uninitialized }) := by
  refine ⟨rfl, rfl, ?_⟩
  exact (init_missing_required.1 newProvider envC7 "envs" cfgC7 rfl
    (by decide)).1

/-- C8 counterexample: Init performs no state check.  Called on a provider
that is already Ready, it runs, succeeds, and replaces the stored
configuration with the new one. -/
theorem init_no_state_check_counterexample :
    readyProviderDefault.state = .ready ∧
    (providerInit readyProviderDefault (fun _ => none) "b" cfgDash).1 =
      .ok () ∧
    (providerInit readyProviderDefault (fun _ => none) "b" cfgDash).2.config =
      some cfgDash ∧
    some cfgDash ≠ readyProviderDefault.config := by
  refine ⟨rfl, rfl, rfl, by decide⟩

/-- C8 (amended): Init is **not** gated on the current state: its outcome
is identical whatever the starting state; on success it replaces the
configuration wholesale and moves to Ready, and on failure it moves to
Uninitialized with the configuration untouched. -/
theorem init_runs_in_any_state (p : Provider) (env : String → Option String)
    (a : String) (cfg : Config) :
    ((providerInit p env a cfg).1 =
      (providerInit { p with state := .uninitialized } env a cfg).1) ∧
    ((providerInit p env a cfg).1 = .ok () →
      (providerInit p env a cfg).2.config = some cfg ∧
      (providerInit p env a cfg).2.state = .ready) ∧
    (∀ e : InitError, (providerInit p env a cfg).1 = .error e →
      (providerInit p env a cfg).2.state = .uninitialized ∧
      (providerInit p env a cfg).2.config = p.config) := by
  cases hval : ValidateConfig cfg with
  | error e0 =>
    have hpi : ∀ q : Provider, providerInit q env a cfg =
        (.error (.invalidConfig e0), { q with state := .uninitialized }) := by
      intro q
      unfold providerInit
      simp only [hval]
    rw [hpi p, hpi { p with state := .uninitialized }]
    exact ⟨rfl, fun h => absurd h (by simp), fun e he => ⟨rfl, rfl⟩⟩
  | ok u =>
    cases u
    by_cases hm :
        (cfg.RequiredVariables.filter (fun n => (env n).isNone)).length > 0
    · have hpi : ∀ q : Provider, providerInit q env a cfg =
          (.error (.missingRequired
              (cfg.RequiredVariables.filter (fun n => (env n).isNone))),
            { q with state := .uninitialized }) := by
        intro q
        unfold providerInit
        simp only [hval]
        rw [if_pos hm]
      rw [hpi p, hpi { p with state := .uninitialized }]
      exact ⟨rfl, fun h => absurd h (by simp), fun e he => ⟨rfl, rfl⟩⟩
    · have hpi : ∀ q : Provider, providerInit q env a cfg =
          (.ok (),
            { q with
              aliasName := a
              config := some cfg
              resolver := some (NewResolver cfg.Separator cfg.CaseTransform
                cfg.Prefix cfg.PrefixMode)
              state := .ready }) := by
        intro q
        unfold providerInit
        simp only [hval]
        rw [if_neg hm]
      rw [hpi p, hpi { p with state := .uninitialized }]
      exact ⟨rfl, fun _ => ⟨rfl, rfl⟩, fun e he => absurd he (by simp)⟩

/-- Witness for C8's amended statement: a Ready provider re-initialized
with a different valid configuration ends Ready with the new
configuration stored. -/
theorem init_runs_in_any_state_witness :
    (providerInit readyProviderDefault (fun _ => none) "b" cfgDash).2.config =
      some cfgDash ∧
    (providerInit readyProviderDefault (fun _ => none) "b" cfgDash).2.state =
      .ready :=
  (init_runs_in_any_state readyProviderDefault (fun _ => none) "b"
    cfgDash).2.1 rfl

/-- C9 counterexample: the separator length check counts **bytes**
(Go `len`), not characters: `é` is one character (two UTF-8 bytes) yet is
rejected with the invalid-separator error, where the claim says a single
multi-byte character is a valid separator. -/
theorem separator_bytes_counterexample :
    cfgMultiByteSep.Separator.length = 1 ∧
    cfgMultiByteSep.Separator.utf8ByteSize = 2 ∧
    ValidateConfig cfgMultiByteSep = .error (.invalidSeparator "é") := by
  refine ⟨by decide, by decide, rfl⟩

/-- C9 (amended): configuration validation accepts a separator exactly when
its **byte** length is 1 (a single multi-byte Unicode character is
rejected), the check runs after the caseRule and prefixMode membership
checks, and the first failure wins. -/
theorem validateConfig_order (c : Config) :
    (¬(c.CaseTransform = "upper" ∨ c.CaseTransform = "lower" ∨
        c.CaseTransform = "preserve") →
      ValidateConfig c = .error (.invalidCaseTransform c.CaseTransform)) ∧
    ((c.CaseTransform = "upper" ∨ c.CaseTransform = "lower" ∨
        c.CaseTransform = "preserve") →
      ¬(c.PrefixMode = "prepend" ∨ c.PrefixMode = "filter_only") →
      ValidateConfig c = .error (.invalidPrefixMode c.PrefixMode)) ∧
    ((c.CaseTransform = "upper" ∨ c.CaseTransform = "lower" ∨
        c.CaseTransform = "preserve") →
      (c.PrefixMode = "prepend" ∨ c.PrefixMode = "filter_only") →
      c.Separator.utf8ByteSize ≠ 1 →
      ValidateConfig c = .error (.invalidSeparator c.Separator)) ∧
    ((c.CaseTransform = "upper" ∨ c.CaseTransform = "lower" ∨
        c.CaseTransform = "preserve") →
      (c.PrefixMode = "prepend" ∨ c.PrefixMode = "filter_only") →
      c.Separator.utf8ByteSize = 1 →
      ValidateConfig c =
        match firstEmptyRequired c.RequiredVariables 0 with
        | some i => .error (.emptyRequiredVariable i)
        | none => .ok ()) := by
  refine ⟨?_, ?_, ?_, ?_⟩
  · intro h1
    unfold ValidateConfig
    rw [if_pos h1]
  · intro h1 h2
    unfold ValidateConfig
    rw [if_neg (not_not_intro h1), if_pos h2]
  · intro h1 h2 h3
    unfold ValidateConfig
    rw [if_neg (not_not_intro h1), if_neg (not_not_intro h2), if_pos h3]
  · intro h1 h2 h3
    unfold ValidateConfig
    rw [if_neg (not_not_intro h1), if_neg (not_not_intro h2),
      if_neg (fun hne => hne h3)]

/-- Witness for C9's amended statement: with valid case rule and prefix
mode, a three-byte separator is rejected by the third check. -/
theorem validateConfig_order_witness :
    ValidateConfig cfgLongSep = .error (.invalidSeparator "abc") :=
  (validateConfig_order cfgLongSep).2.2.1 (by decide) (by decide) (by decide)

/-- C10 counterexample: with a valid Preserve-case configuration whose
prefix is non-empty in `prepend` mode, the resolved name carries the
prefix and is **not** byte-for-byte the separator-join of the segments. -/
theorem preserve_join_counterexample :
    ValidateConfig cfgPreservePrepend = .ok () ∧
    cfgPreservePrepend.CaseTransform = "preserve" ∧
    Transform (NewResolver cfgPreservePrepend.Separator
      cfgPreservePrepend.CaseTransform cfgPreservePrepend.Prefix
      cfgPreservePrepend.PrefixMode) ["a", "b"] = .ok "P_a_b" ∧
    "P_a_b" ≠ String.intercalate cfgPreservePrepend.Separator ["a", "b"] := by
  refine ⟨rfl, rfl, rfl, by decide⟩

/-- C10 (amended): for every valid Preserve-case configuration whose
prefix is empty or whose prefix mode is `filter_only`, and every non-empty
path of non-blank segments, the resolved name is exactly the segments
joined with the separator. -/
theorem transform_preserve_join (cfg : Config) (path : List String)
    (_hv : ValidateConfig cfg = .ok ())
    (hcase : cfg.CaseTransform = "preserve")
    (hpfx : cfg.Prefix = "" ∨ cfg.PrefixMode = "filter_only")
    (hne : path ≠ [])
    (hseg : ∀ s ∈ path, goTrimSpace s ≠ "") :
    Transform (NewResolver cfg.Separator cfg.CaseTransform cfg.Prefix
      cfg.PrefixMode) path = .ok (String.intercalate cfg.Separator path) := by
  unfold Transform NewResolver
  rw [if_neg hne]
  have hany : ¬(path.any (fun s => goTrimSpace s = "") = true) := by
    simp only [List.any_eq_true, decide_eq_true_eq]
    rintro ⟨s, hs, hempty⟩
    exact hseg s hs hempty
  rw [if_neg hany]
  have hsegs : TransformSegments path cfg.CaseTransform = path := by
    unfold TransformSegments
    have hone : ∀ s, TransformSegment s cfg.CaseTransform = s := by
      intro s
      unfold TransformSegment
      rw [hcase]
      rw [if_neg (by decide), if_neg (by decide)]
    simp [hone]
  rw [hsegs]
  unfold ApplyPrefix
  rcases hpfx with h | h
  · rw [if_pos h]
  · by_cases hp : cfg.Prefix = ""
    · rw [if_pos hp]
    · rw [if_neg hp, h, if_neg (by decide : ¬("filter_only" = "prepend"))]

/-- Witness for C10's amended statement: Preserve case with no prefix,
path `["a","b"]`, separator `_` resolves to `a_b`. -/
theorem transform_preserve_join_witness :
    ValidateConfig cfgPreserveNoPrefix = .ok () ∧
    Transform (NewResolver cfgPreserveNoPrefix.Separator
      cfgPreserveNoPrefix.CaseTransform cfgPreserveNoPrefix.Prefix
      cfgPreserveNoPrefix.PrefixMode) ["a", "b"] = .ok "a_b" := by
  refine ⟨rfl, ?_⟩
  exact transform_preserve_join cfgPreserveNoPrefix ["a", "b"] rfl rfl
    (Or.inl rfl) (by decide) (by decide)

/-- C1: the converter's fixed precedence.  Empty input returns `String("")`
immediately; `convert("42")` is `Number(42)`; `convert("true")` is
`Boolean(true)`; `convert("1")` is `Number(1)` and never a Boolean; when
JSON parsing is enabled and the trimmed input starts with `{` or `[`, the
result is the JSON branch (whatever the type-conversion flag); otherwise,
with type conversion enabled, a numeric parse is attempted first, then a
boolean parse, then the input is returned as a string. -/
theorem convert_precedence :
    (∀ tc jp : Bool, ConvertValue "" tc jp = .ok (.s "", "string")) ∧
    ConvertValue "42" true true = .ok (.n (.finite ⟨42, 0⟩), "number") ∧
    ConvertValue "true" true true = .ok (.b true, "boolean") ∧
    ConvertValue "1" true true = .ok (.n (.finite ⟨1, 0⟩), "number") ∧
    (∀ (b : Bool) (tstr : String),
      ConvertValue "1" true true ≠ .ok (.b b, tstr)) ∧
    GoNum.toRat ⟨42, 0⟩ = 42 ∧
    GoNum.toRat ⟨1, 0⟩ = 1 ∧
    (∀ (v : String) (tc jp : Bool), v.utf8ByteSize ≤ MaxValueSize → v ≠ "" →
      jp = true →
      (startsWithChar (goTrimSpace v) '{' ||
        startsWithChar (goTrimSpace v) '[') = true →
      ConvertValue v tc jp =
        match TryJSON v with
        | .error e => .error e
        | .ok r => .ok (.j r, if isJsonArray r then "array" else "object")) ∧
    (∀ (v : String) (jp : Bool), v.utf8ByteSize ≤ MaxValueSize → v ≠ "" →
      (jp = true →
        (startsWithChar (goTrimSpace v) '{' ||
          startsWithChar (goTrimSpace v) '[') = false) →
      ConvertValue v true jp =
        match TryNumeric v with
        | some numv => .ok (.n numv, "number")
        | none =>
          match TryBoolean v with
          | some bv => .ok (.b bv, "boolean")
          | none => .ok (.s v, "string")) := by
  refine ⟨?_, rfl, rfl, rfl, ?_, ?_, ?_, ?_, ?_⟩
  · intro tc jp; rfl
  · intro b tstr hc
    rw [show ConvertValue "1" true true =
      .ok (.n (.finite ⟨1, 0⟩), "number") from rfl] at hc
    simp at hc
  · simp [GoNum.toRat]
  · simp [GoNum.toRat]
  · intro v tc jp hsize hne hjp hsniff
    subst hjp
    unfold ConvertValue
    rw [if_neg (by omega)]
    rw [if_neg hne]
    rw [if_pos (by rw [Bool.true_and]; exact hsniff)]
  · intro v jp hsize hne hsniffimp
    unfold ConvertValue
    rw [if_neg (by omega)]
    rw [if_neg hne]
    have hc : (jp && (startsWithChar (goTrimSpace v) '{' ||
        startsWithChar (goTrimSpace v) '[')) = false := by
      cases jp with
      | false => rfl
      | true => rw [Bool.true_and]; exact hsniffimp rfl
    rw [if_neg (by rw [hc]; exact Bool.false_ne_true)]
    rw [if_neg (by decide : ¬((!true) = true))]

/-- Witness for C1: the JSON branch taken on `{"a":1}` and the
number/boolean/string chain taken on `7` with JSON parsing disabled, by
applying the precedence theorem. -/
theorem convert_precedence_witness :
    ConvertValue "\x7b\"a\":1\x7d" true true =
      (match TryJSON "\x7b\"a\":1\x7d" with
        | .error e => .error e
        | .ok r => .ok (.j r, if isJsonArray r then "array" else "object")) ∧
    ConvertValue "7" true false =
      (match TryNumeric "7" with
        | some numv => .ok (.n numv, "number")
        | none =>
          match TryBoolean "7" with
          | some bv => .ok (.b bv, "boolean")
          | none => .ok (.s "7", "string")) := by
  obtain ⟨-, -, -, -, -, -, -, hjson, hchain⟩ := convert_precedence
  exact ⟨hjson "\x7b\"a\":1\x7d" true true (by decide) (by decide) rfl rfl,
    hchain "7" false (by decide) (by decide) (fun h => absurd h (by simp))⟩

/-- C5: whenever JSON parsing is enabled, the whitespace-trimmed input
starts with `{` or `[`, and the JSON parse fails, conversion fails with
InvalidJson — it never falls back to returning a string (or any other
success). -/
theorem convert_invalid_json_fails (v : String) (tc : Bool)
    (hsize : v.utf8ByteSize ≤ MaxValueSize)
    (hsniff : (startsWithChar (goTrimSpace v) '{' ||
      startsWithChar (goTrimSpace v) '[') = true)
    (hfail : jsonParse v = none) :
    ConvertValue v tc true = .error .invalidJson ∧
    ∀ r : ProtoVal × String, ConvertValue v tc true ≠ .ok r := by
  have hne : v ≠ "" := by
    intro h
    subst h
    exact absurd hsniff (by decide)
  have heq : ConvertValue v tc true = .error .invalidJson := by
    unfold ConvertValue
    rw [if_neg (by omega)]
    rw [if_neg hne]
    rw [if_pos (by rw [Bool.true_and]; exact hsniff)]
    rw [show TryJSON v = .error .invalidJson from by unfold TryJSON; rw [hfail]]
  refine ⟨heq, fun r hc => ?_⟩
  rw [heq] at hc
  exact Except.noConfusion hc

/-- Witness for C5: the spec's own malformed input `{"a":1`. -/
theorem convert_invalid_json_fails_witness :
    ("\x7b\"a\":1" : String).utf8ByteSize ≤ MaxValueSize ∧
    jsonParse "\x7b\"a\":1" = none ∧
    ConvertValue "\x7b\"a\":1" true true = .error .invalidJson := by
  refine ⟨by decide, rfl, ?_⟩
  exact (convert_invalid_json_fails "\x7b\"a\":1" true (by decide) rfl rfl).1

end EnvVarProvider
